import Mathlib

/-!
Verification of the MobileCoin watcher synchronization engine
(`watcher/src/watcher.rs`): the per-source cursor model, the
`lowest_next_block_to_sync` convergence rule, the bounded
fetch-and-reconcile loop `sync_blocks`, the parallel fetch stage, and the
pure decision fragment of the background driver (`WatcherSyncThread`).

The embedding keeps the Rust structure: the cursor map read from the
watcher database is a finite association list from source URL to optional
last-synced block index; the external collaborators (the watcher database,
the transactions fetcher, the path mapper) are modelled as oracles bundled
in `Env`; store mutations performed by one `sync_blocks` call are recorded
as an explicit event trace; the unbounded Rust `loop` is given explicit
fuel, with `none` meaning the loop was still running when the fuel ran out.
-/

namespace MobileCoinWatcher

/-- A source URL, modelled as a numeric identifier. -/
abbrev Url := Nat

abbrev BlockIndex := Nat

/-- A `WatcherError` value, modelled as a numeric error code. -/
abbrev WatcherErr := Nat

/-- Block material fetched for one `(source, index)` pair.  Only the
presence and identity of the block signature matter to the sync engine;
the rest of the payload is opaque and kept as a number. -/
structure BlockData where
  signature : Option Nat
  payload : Nat
deriving DecidableEq

/-- Modelled from the spec: outcome of `WatcherDB::add_block_data`
(the watcher database lives outside the analysed file).  The store is
idempotent and reports a distinguished benign "already exists" outcome
next to ordinary success and fatal errors. -/
inductive AddBlockDataRes where
  | ok
  | alreadyExists
  | err (e : WatcherErr)
deriving DecidableEq

/-- Modelled from the spec: the external collaborators consumed by the
engine, as deterministic oracles.
* `path` is `block_num_to_s3block_path`, the pure deterministic mapping
  from a block index to its canonical relative path (the path itself is
  opaque, kept as a number);
* `joinUrl` is `Url::join` of a source base URL with a relative path,
  which can fail;
* `block_from_url` is `ReqwestTransactionsFetcher::block_from_url`;
* `addBlockDataRes`, `addSigRes`, `updateRes` are the outcomes of the
  watcher database's `add_block_data`, `add_block_signature` and
  `update_last_synced` calls. -/
structure Env where
  path : BlockIndex → Nat
  joinUrl : Url → Nat → Except WatcherErr Url
  block_from_url : Url → Except WatcherErr BlockData
  addBlockDataRes : Url → BlockData → AddBlockDataRes
  addSigRes : Url → BlockIndex → Nat → Nat → Except WatcherErr Unit
  updateRes : Url → BlockIndex → Except WatcherErr Unit

/-- The per-source cursor map returned by
`WatcherDB::last_synced_blocks`: each configured source URL paired with
its optional last-synced block index. -/
abbrev CursorMap := List (Url × Option BlockIndex)

/-- A store mutation performed during reconciliation, recorded with the
arguments the Rust code passes. -/
inductive Event where
  | addBlockData (u : Url) (bd : BlockData)
  | addBlockSignature (u : Url) (idx : BlockIndex) (s : Nat) (filename : Nat)
  | updateLastSynced (u : Url) (idx : BlockIndex)
deriving DecidableEq

/-- The "next index" of one cursor as computed inside
`lowest_next_block_to_sync`: `None → 0`, `Some(i) → i + 1`. -/
def nextIndexOf : Option BlockIndex → Nat
  | none => 0
  | some index => index + 1

/-- `Watcher::lowest_next_block_to_sync`: map every cursor to its next
index and take the minimum, defaulting to `0` when there are no sources. -/
def lowest_next_block_to_sync (last_synced : CursorMap) : Nat :=
  ((last_synced.map fun p => nextIndexOf p.2).min?).getD 0

/-- The `retain` filter at the top of each `sync_blocks` iteration: when a
maximum block height is given, keep only the sources whose cursor is
`None` or `Some(i)` with `i < max_block_height`. -/
def retainNeedsSync (max_block_height : Option Nat) (last_synced : CursorMap) : CursorMap :=
  match max_block_height with
  | none => last_synced
  | some h => last_synced.filter fun p =>
      match p.2 with
      | some block_index => decide (block_index < h)
      | none => true

/-- The fetch target of one retained source:
`opt_block_index.map(|i| i + 1).unwrap_or(start)`. -/
def nextTarget (start : Nat) : Option BlockIndex → Nat
  | some i => i + 1
  | none => start

/-- `fetch_single_block`: compute the canonical path of the block index,
resolve it against the source base URL (which can fail), then ask the
fetcher for the block at the resulting URL. -/
def fetch_single_block (env : Env) (src_url : Url) (block_index : BlockIndex) :
    Except WatcherErr BlockData :=
  match env.joinUrl src_url (env.path block_index) with
  | .error e => .error e
  | .ok block_url => env.block_from_url block_url

/-- `parallel_fetch_blocks`: one fetch attempt per input source, each
outcome captured per source; the stage itself always returns `Ok`. -/
def parallel_fetch_blocks (env : Env) (url_to_block_index : List (Url × BlockIndex)) :
    Except WatcherErr (List (Url × BlockIndex × Except WatcherErr BlockData)) :=
  .ok (url_to_block_index.map fun p => (p.1, p.2, fetch_single_block env p.1 p.2))

/-- Modelled from the spec: the cursor-advancing effect on the store of
`add_block_signature` (implicit advance) and `update_last_synced`
(explicit advance) — both record `idx` as the source's last synced block. -/
def setCursor (m : CursorMap) (u : Url) (idx : BlockIndex) : CursorMap :=
  m.map fun p => if p.1 = u then (p.1, some idx) else p

/-- The `store_block_data` guard of the reconciliation loop body
(`if self.store_block_data { match self.watcher_db.add_block_data(..) }`):
when enabled, call the store; `Ok` and the benign `AlreadyExists` both
continue, any other store error aborts with that error. -/
def store_data_step (env : Env) (store_block_data : Bool) (u : Url) (bd : BlockData)
    (events : List Event) : Except WatcherErr (List Event) :=
  if store_block_data then
    match env.addBlockDataRes u bd with
    | .ok => .ok (events ++ [Event.addBlockData u bd])
    | .alreadyExists => .ok (events ++ [Event.addBlockData u bd])
    | .err e => .error e
  else .ok events

/-- The signature branch of the reconciliation loop body: material with a
signature is persisted via `add_block_signature` keyed by the source, the
fetched index, the signature and the canonical path of the index
(implicitly advancing the cursor); material without one explicitly
advances the cursor via `update_last_synced`.  Either store call's error
aborts. -/
def advance_step (env : Env) (u : Url) (idx : BlockIndex) (bd : BlockData)
    (m : CursorMap) (events : List Event) :
    Except WatcherErr (CursorMap × List Event × Bool) :=
  match bd.signature with
  | some s =>
    match env.addSigRes u idx s (env.path idx) with
    | .error e => .error e
    | .ok _ => .ok (setCursor m u idx,
        events ++ [Event.addBlockSignature u idx s (env.path idx)], true)
  | none =>
    match env.updateRes u idx with
    | .error e => .error e
    | .ok _ => .ok (setCursor m u idx,
        events ++ [Event.updateLastSynced u idx], true)

/-- Reconciliation of one per-source fetch result (the body of the `for`
loop in `sync_blocks`): a failed fetch is skipped; a successful fetch
first stores the raw block data when enabled, then either persists the
signature or explicitly advances the cursor, and marks that the
iteration had a success. -/
def reconcileOne (env : Env) (store_block_data : Bool)
    (st : CursorMap × List Event × Bool)
    (entry : Url × BlockIndex × Except WatcherErr BlockData) :
    Except WatcherErr (CursorMap × List Event × Bool) :=
  match entry.2.2 with
  | .error _ => .ok st
  | .ok block_data =>
    match store_data_step env store_block_data entry.1 block_data st.2.1 with
    | .error e => .error e
    | .ok events => advance_step env entry.1 entry.2.1 block_data st.1 events

/-- `Watcher::sync_blocks` with explicit fuel for the unbounded loop.
Each iteration re-reads the cursors, filters by the bound, returns `true`
when no source remains, else fetches all targets in parallel, reconciles
every result, and loops exactly when at least one source succeeded.
The result carries the final cursor map and the trace of store mutations;
`none` means the loop was still running when the fuel ran out. -/
def sync_blocks (env : Env) (store_block_data : Bool) (start : Nat)
    (max_block_height : Option Nat) :
    Nat → CursorMap → Option (Except WatcherErr (Bool × CursorMap × List Event))
  | 0, _ => none
  | fuel + 1, cursors =>
    let last_synced := retainNeedsSync max_block_height cursors
    if last_synced.isEmpty then some (.ok (true, cursors, []))
    else
      let url_to_block_index := last_synced.map fun p => (p.1, nextTarget start p.2)
      match parallel_fetch_blocks env url_to_block_index with
      | .error e => some (.error e)
      | .ok url_to_block_data_result =>
        match url_to_block_data_result.foldlM (reconcileOne env store_block_data)
            (cursors, [], false) with
        | .error e => some (.error e)
        | .ok (new_cursors, events, had_success) =>
          if had_success then
            match sync_blocks env store_block_data start max_block_height fuel new_cursors with
            | none => none
            | some (.error e) => some (.error e)
            | some (.ok (b, final_cursors, more)) =>
              some (.ok (b, final_cursors, events ++ more))
          else some (.ok (false, new_cursors, events))

/-- `MAX_BLOCKS_PER_SYNC_ITERATION`, the driver's per-pass budget. -/
def MAX_BLOCKS_PER_SYNC_ITERATION : Nat := 10

/-- The externally visible effects of one iteration of
`WatcherSyncThread::thread_entrypoint`'s loop. -/
structure DriverStep where
  exited : Bool
  publishedBehind : Option Bool
  syncCall : Option (Nat × Option Nat)
  slept : Bool
deriving DecidableEq

/-- One iteration of the driver loop: observe the stop flag at the top
(exiting if set), publish whether the watcher is behind the ledger, and
either run a bounded sync pass (when behind) or sleep for the poll
interval (when not behind and the stop flag, re-read, is still clear). -/
def thread_iteration (stop_at_top stop_at_recheck : Bool)
    (lowest ledger_num_blocks : Nat) : DriverStep :=
  if stop_at_top then ⟨true, none, none, false⟩
  else
    let is_behind : Bool := decide (lowest < ledger_num_blocks)
    if is_behind then
      ⟨false, some is_behind,
        some (lowest, some (min (ledger_num_blocks - 1)
          (lowest + MAX_BLOCKS_PER_SYNC_ITERATION))), false⟩
    else if !stop_at_recheck then
      ⟨false, some is_behind, none, true⟩
    else
      ⟨false, some is_behind, none, false⟩

/-- Decides whether a per-source fetch outcome is a failure. -/
def exceptIsError : Except WatcherErr BlockData → Bool
  | .error _ => true
  | .ok _ => false

/-- Looks up the cursor of one source in the cursor map. -/
def getCursor (m : CursorMap) (u : Url) : Option (Option BlockIndex) :=
  (m.find? fun p => p.1 == u).map Prod.snd

/-- Cursor order: a source's cursor never moves backwards — `none` is
below everything, and a synced index only grows. -/
def cursorLE : Option BlockIndex → Option BlockIndex → Prop
  | none, _ => True
  | some i, some j => i ≤ j
  | some _, none => False

/-- Block material without a signature, for concrete scenarios. -/
def bdPlain : BlockData := ⟨none, 0⟩

/-- Block material carrying signature `5`, for concrete scenarios. -/
def bdSigned : BlockData := ⟨some 5, 1⟩

/-- Concrete environment whose fetcher always fails with error code `7`. -/
def envFail : Env :=
  ⟨fun i => i, fun u f => .ok (u * 1000 + f), fun _ => .error 7,
   fun _ _ => .ok, fun _ _ _ _ => .ok (), fun _ _ => .ok ()⟩

/-- Concrete environment whose fetcher always returns unsigned material
and whose store always succeeds. -/
def envPlain : Env :=
  ⟨fun i => i, fun u f => .ok (u * 1000 + f), fun _ => .ok bdPlain,
   fun _ _ => .ok, fun _ _ _ _ => .ok (), fun _ _ => .ok ()⟩

/-- Concrete environment whose fetcher returns signed material and whose
`add_block_data` reports `AlreadyExists`. -/
def envAlready : Env :=
  ⟨fun i => i, fun u f => .ok (u * 1000 + f), fun _ => .ok bdSigned,
   fun _ _ => .alreadyExists, fun _ _ _ _ => .ok (), fun _ _ => .ok ()⟩

/-- Concrete environment whose `add_block_data` fails fatally with error
code `9`. -/
def envFatalStore : Env :=
  ⟨fun i => i, fun u f => .ok (u * 1000 + f), fun _ => .ok bdPlain,
   fun _ _ => .err 9, fun _ _ _ _ => .ok (), fun _ _ => .ok ()⟩

/-- Concrete environment whose URL join fails with error code `3`. -/
def envJoinFail : Env :=
  ⟨fun i => i, fun _ _ => .error 3, fun _ => .ok bdPlain,
   fun _ _ => .ok, fun _ _ _ _ => .ok (), fun _ _ => .ok ()⟩

theorem except_bind_ok {α β : Type} {x : Except WatcherErr α} {f : α → Except WatcherErr β}
    {b : β} (h : (x >>= f) = .ok b) : ∃ a, x = .ok a ∧ f a = .ok b := by
  cases x with
  | error e => simp [Bind.bind, Except.bind] at h
  | ok a => exact ⟨a, rfl, by simpa [Bind.bind, Except.bind] using h⟩

theorem store_data_step_ok {env : Env} {sbd : Bool} {u : Url} {bd : BlockData}
    {events events' : List Event} (h : store_data_step env sbd u bd events = .ok events') :
    events' = events ++ (if sbd then [Event.addBlockData u bd] else []) := by
  cases sbd with
  | false => simpa [store_data_step] using h.symm
  | true =>
    simp only [store_data_step, if_pos] at h
    cases henv : env.addBlockDataRes u bd <;> rw [henv] at h <;>
      simp_all

theorem advance_step_ok {env : Env} {u : Url} {idx : BlockIndex} {bd : BlockData}
    {m : CursorMap} {events : List Event} {st' : CursorMap × List Event × Bool}
    (h : advance_step env u idx bd m events = .ok st') :
    st'.1 = setCursor m u idx ∧ st'.2.2 = true ∧ ∃ ev, st'.2.1 = events ++ [ev] := by
  cases hsig : bd.signature with
  | none =>
    simp only [advance_step, hsig] at h
    cases hres : env.updateRes u idx with
    | error e0 => rw [hres] at h; exact absurd h (by simp)
    | ok a =>
      rw [hres] at h
      obtain rfl := Except.ok.inj h
      exact ⟨rfl, rfl, Event.updateLastSynced u idx, rfl⟩
  | some s =>
    simp only [advance_step, hsig] at h
    cases hres : env.addSigRes u idx s (env.path idx) with
    | error e0 => rw [hres] at h; exact absurd h (by simp)
    | ok a =>
      rw [hres] at h
      obtain rfl := Except.ok.inj h
      exact ⟨rfl, rfl, Event.addBlockSignature u idx s (env.path idx), rfl⟩

theorem reconcileOne_skip_on_fetch_error (env : Env) (sbd : Bool)
    (st : CursorMap × List Event × Bool) (u : Url) (idx : BlockIndex) (err : WatcherErr) :
    reconcileOne env sbd st (u, idx, .error err) = .ok st := rfl

theorem reconcileOne_ok_inv {env : Env} {sbd : Bool}
    {st st' : CursorMap × List Event × Bool}
    {e : Url × BlockIndex × Except WatcherErr BlockData}
    (h : reconcileOne env sbd st e = .ok st') :
    (st' = st ∧ exceptIsError e.2.2 = true) ∨
    (st'.1 = setCursor st.1 e.1 e.2.1 ∧ st'.2.2 = true ∧
      ∃ tail, st'.2.1 = st.2.1 ++ tail) := by
  obtain ⟨u, idx, r⟩ := e
  cases r with
  | error err =>
    left
    exact ⟨by simpa [reconcileOne] using h.symm, rfl⟩
  | ok bd =>
    right
    simp only [reconcileOne] at h
    cases hsd : store_data_step env sbd u bd st.2.1 with
    | error e0 => rw [hsd] at h; simp at h
    | ok events =>
      rw [hsd] at h
      obtain ⟨h1, h2, ev, h3⟩ := advance_step_ok h
      refine ⟨h1, h2, [Event.addBlockData u bd].filter (fun _ => sbd) ++ [ev], ?_⟩
      rw [h3, store_data_step_ok hsd]
      cases sbd <;> simp

theorem reconcileOne_flag_mono {env : Env} {sbd : Bool}
    {st st' : CursorMap × List Event × Bool}
    {e : Url × BlockIndex × Except WatcherErr BlockData}
    (h : reconcileOne env sbd st e = .ok st') (hf : st.2.2 = true) : st'.2.2 = true := by
  rcases reconcileOne_ok_inv h with ⟨rfl, -⟩ | ⟨-, h2, -⟩
  · exact hf
  · exact h2

theorem setCursor_keys (m : CursorMap) (u : Url) (idx : BlockIndex) :
    (setCursor m u idx).map Prod.fst = m.map Prod.fst := by
  unfold setCursor
  rw [List.map_map]
  apply List.map_congr_left
  intro p _
  by_cases h : p.1 = u <;> simp [h]

theorem reconcileOne_keys {env : Env} {sbd : Bool}
    {st st' : CursorMap × List Event × Bool}
    {e : Url × BlockIndex × Except WatcherErr BlockData}
    (h : reconcileOne env sbd st e = .ok st') :
    st'.1.map Prod.fst = st.1.map Prod.fst := by
  rcases reconcileOne_ok_inv h with ⟨rfl, -⟩ | ⟨h1, -, -⟩
  · rfl
  · rw [h1, setCursor_keys]

theorem foldlM_reconcile_inv {env : Env} {sbd : Bool} :
    ∀ {es : List (Url × BlockIndex × Except WatcherErr BlockData)}
      {st st' : CursorMap × List Event × Bool},
      List.foldlM (reconcileOne env sbd) st es = .ok st' →
      st'.1.map Prod.fst = st.1.map Prod.fst ∧
      (st.2.2 = true → st'.2.2 = true) := by
  intro es
  induction es with
  | nil =>
    intro st st' h
    obtain rfl : st = st' := by simpa [List.foldlM_nil, pure, Except.pure] using h
    exact ⟨rfl, id⟩
  | cons e es ih =>
    intro st st' h
    rw [List.foldlM_cons] at h
    obtain ⟨st1, h1, h2⟩ := except_bind_ok h
    obtain ⟨hk, hf⟩ := ih h2
    exact ⟨hk.trans (reconcileOne_keys h1), fun ht => hf (reconcileOne_flag_mono h1 ht)⟩

theorem foldlM_reconcile_all_error {env : Env} {sbd : Bool} :
    ∀ {es : List (Url × BlockIndex × Except WatcherErr BlockData)}
      {st : CursorMap × List Event × Bool},
      (∀ e ∈ es, exceptIsError e.2.2 = true) →
      List.foldlM (reconcileOne env sbd) st es = .ok st := by
  intro es
  induction es with
  | nil => intro st _; rfl
  | cons e es ih =>
    intro st hall
    obtain ⟨u, idx, r⟩ := e
    cases r with
    | ok bd => exact absurd (hall _ (List.mem_cons_self _ _)) (by simp [exceptIsError])
    | error err =>
      rw [List.foldlM_cons, reconcileOne_skip_on_fetch_error]
      have : ∀ e ∈ es, exceptIsError e.2.2 = true := fun e he =>
        hall e (List.mem_cons_of_mem _ he)
      simpa [Bind.bind, Except.bind] using ih this

theorem lowest_le_of_mem (m : CursorMap) (p : Url × Option BlockIndex) (hp : p ∈ m) :
    lowest_next_block_to_sync m ≤ nextIndexOf p.2 :=
  List.min?_getD_le_of_mem (List.mem_map_of_mem (fun q => nextIndexOf q.2) hp)

theorem lowest_attained (m : CursorMap) (hm : m ≠ []) :
    ∃ p ∈ m, lowest_next_block_to_sync m = nextIndexOf p.2 := by
  have hmap : (m.map fun q => nextIndexOf q.2) ≠ [] := by simpa using hm
  match hmin : (m.map fun q => nextIndexOf q.2).min? with
  | none => exact absurd (List.min?_eq_none_iff.mp hmin) hmap
  | some a =>
    obtain ⟨hamem, -⟩ := List.min?_eq_some_iff'.mp hmin
    obtain ⟨p, hp, hpa⟩ := List.mem_map.mp hamem
    refine ⟨p, hp, ?_⟩
    unfold lowest_next_block_to_sync
    rw [hmin, Option.getD_some, hpa]

/-- C1: `lowest_next_block_to_sync` maps a `None` cursor to `0` and a
`Some(i)` cursor to `i + 1`, returns a value that is a lower bound of all
sources' next indices and is attained by some source, and returns `0`
when the cursor map is empty. -/
theorem c1_lowest_next_block_is_min (m : CursorMap) :
    (m = [] → lowest_next_block_to_sync m = 0) ∧
    (∀ p ∈ m, lowest_next_block_to_sync m ≤ nextIndexOf p.2) ∧
    (m ≠ [] → ∃ p ∈ m, lowest_next_block_to_sync m = nextIndexOf p.2) ∧
    nextIndexOf none = 0 ∧ (∀ i, nextIndexOf (some i) = i + 1) := by
  refine ⟨?_, fun p hp => lowest_le_of_mem m p hp, lowest_attained m, rfl, fun i => rfl⟩
  rintro rfl
  rfl

/-- C1 witness: on the concrete map `[(0, None), (1, Some 4)]` the
minimum next index is `0` and it is attained. -/
theorem c1_lowest_next_block_is_min_witness :
    lowest_next_block_to_sync [(0, none), (1, some 4)] = 0 ∧
    ∃ p ∈ ([(0, none), (1, some 4)] : CursorMap),
      lowest_next_block_to_sync [(0, none), (1, some 4)] = nextIndexOf p.2 :=
  ⟨rfl, (c1_lowest_next_block_is_min [(0, none), (1, some 4)]).2.2.1 (by decide)⟩

/-- C7: in a driver iteration that was not stopped at the top, the
published behind flag equals `lowest < ledger_num_blocks`; when behind,
`sync_blocks` is invoked with start `lowest` and bound
`Some(min(ledger_num_blocks - 1, lowest + MAX_BLOCKS_PER_SYNC_ITERATION))`;
and the iteration budget constant is `10`. -/
theorem c7_driver_behind_and_bound (s2 : Bool) (lowest ledger_num_blocks : Nat) :
    (thread_iteration false s2 lowest ledger_num_blocks).publishedBehind =
      some (decide (lowest < ledger_num_blocks)) ∧
    (lowest < ledger_num_blocks →
      (thread_iteration false s2 lowest ledger_num_blocks).syncCall =
        some (lowest, some (min (ledger_num_blocks - 1)
          (lowest + MAX_BLOCKS_PER_SYNC_ITERATION)))) ∧
    MAX_BLOCKS_PER_SYNC_ITERATION = 10 := by
  cases s2 <;> by_cases h : lowest < ledger_num_blocks <;>
    simp [thread_iteration, h, MAX_BLOCKS_PER_SYNC_ITERATION]

/-- C7 witness: with lowest next block `5` and ledger height `10`, the
driver publishes behind and calls `sync_blocks(5, Some(9))`. -/
theorem c7_driver_behind_and_bound_witness :
    (thread_iteration false false 5 10).syncCall = some (5, some 9) :=
  (c7_driver_behind_and_bound false 5 10).2.1 (by decide)

/-- C8: the poll-interval sleep is reached in a driver iteration only
when the driver is not behind and no stop was requested (at either
check), and an iteration that is behind never sleeps. -/
theorem c8_sleep_only_when_caught_up (s1 s2 : Bool) (lowest ledger_num_blocks : Nat) :
    ((thread_iteration s1 s2 lowest ledger_num_blocks).slept = true →
      s1 = false ∧ s2 = false ∧ ¬lowest < ledger_num_blocks) ∧
    (lowest < ledger_num_blocks →
      (thread_iteration s1 s2 lowest ledger_num_blocks).slept = false) := by
  cases s1 <;> cases s2 <;> by_cases h : lowest < ledger_num_blocks <;>
    simp [thread_iteration, h]

/-- C8 witness: a behind iteration (lowest `5`, ledger `10`) does not
sleep. -/
theorem c8_sleep_only_when_caught_up_witness :
    (thread_iteration false false 5 10).slept = false :=
  (c8_sleep_only_when_caught_up false false 5 10).2 (by decide)

/-- C10: `parallel_fetch_blocks` never returns a stage-level error — it
returns `Ok` of a map with one entry per input source whose value is that
source's own fetch outcome — and a failure to build the fetch URL from
the base URL and the canonical path is captured as that source's per-entry
error by `fetch_single_block`. -/
theorem c10_parallel_fetch_never_stage_error :
    (∀ env l, parallel_fetch_blocks env l =
      .ok (l.map fun p => (p.1, p.2, fetch_single_block env p.1 p.2))) ∧
    (∀ env l out, parallel_fetch_blocks env l = .ok out →
      out.map (fun e => e.1) = l.map Prod.fst ∧
      ∀ p ∈ l, (p.1, p.2, fetch_single_block env p.1 p.2) ∈ out) ∧
    (∀ env u idx e, env.joinUrl u (env.path idx) = .error e →
      fetch_single_block env u idx = .error e) := by
  refine ⟨fun env l => rfl, ?_, ?_⟩
  · intro env l out hout
    have : out = l.map fun p => (p.1, p.2, fetch_single_block env p.1 p.2) := by
      have h := hout
      simp only [parallel_fetch_blocks, Except.ok.injEq] at h
      exact h.symm
    subst this
    constructor
    · simp
    · intro p hp
      exact List.mem_map_of_mem _ hp
  · intro env u idx e he
    unfold fetch_single_block
    rw [he]

/-- C10 witness: with a URL join that fails with error `3`, the
per-source fetch outcome is that error, not a stage failure. -/
theorem c10_parallel_fetch_never_stage_error_witness :
    fetch_single_block envJoinFail 0 0 = .error 3 :=
  c10_parallel_fetch_never_stage_error.2.2 envJoinFail 0 0 3 rfl

theorem getCursor_cons (p : Url × Option BlockIndex) (m : CursorMap) (w : Url) :
    getCursor (p :: m) w = if p.1 = w then some p.2 else getCursor m w := by
  simp only [getCursor, List.find?_cons]
  by_cases h : p.1 = w
  · simp [h]
  · simp [h, beq_false_of_ne h]

theorem setCursor_cons (p : Url × Option BlockIndex) (m : CursorMap) (u : Url)
    (idx : BlockIndex) :
    setCursor (p :: m) u idx = (if p.1 = u then (p.1, some idx) else p) :: setCursor m u idx := by
  simp only [setCursor, List.map_cons]

theorem getCursor_setCursor_mem (m : CursorMap) (u : Url) (idx : BlockIndex)
    (hu : u ∈ m.map Prod.fst) : getCursor (setCursor m u idx) u = some (some idx) := by
  induction m with
  | nil => simp at hu
  | cons p m ih =>
    rw [setCursor_cons]
    by_cases h : p.1 = u
    · rw [if_pos h, getCursor_cons, if_pos h]
    · rw [if_neg h, getCursor_cons, if_neg h]
      have hu' : u ∈ m.map Prod.fst := by
        rcases List.mem_cons.mp hu with h' | h'
        · exact absurd h'.symm h
        · exact h'
      exact ih hu'

theorem getCursor_setCursor_other (m : CursorMap) (u w : Url) (idx : BlockIndex)
    (hw : w ≠ u) : getCursor (setCursor m u idx) w = getCursor m w := by
  induction m with
  | nil => rfl
  | cons p m ih =>
    rw [setCursor_cons, getCursor_cons (p := p)]
    by_cases h : p.1 = u
    · have hpw : ¬p.1 = w := fun he => hw (he.symm.trans h)
      rw [if_pos h, getCursor_cons]
      simp only [if_neg hpw]
      exact ih
    · rw [if_neg h, getCursor_cons]
      by_cases hpw : p.1 = w
      · rw [if_pos hpw, if_pos hpw]
      · rw [if_neg hpw, if_neg hpw]
        exact ih

theorem foldlM_reconcile_untouched_key {env : Env} {sbd : Bool} :
    ∀ {es : List (Url × BlockIndex × Except WatcherErr BlockData)}
      {st st' : CursorMap × List Event × Bool} {u : Url},
      (∀ e ∈ es, e.1 ≠ u) →
      List.foldlM (reconcileOne env sbd) st es = .ok st' →
      getCursor st'.1 u = getCursor st.1 u := by
  intro es
  induction es with
  | nil =>
    intro st st' u _ h
    obtain rfl : st = st' := by simpa [List.foldlM_nil, pure, Except.pure] using h
    rfl
  | cons e es ih =>
    intro st st' u hne h
    rw [List.foldlM_cons] at h
    obtain ⟨st1, h1, h2⟩ := except_bind_ok h
    have hrest := ih (fun e' he' => hne e' (List.mem_cons_of_mem _ he')) h2
    rw [hrest]
    rcases reconcileOne_ok_inv h1 with ⟨rfl, -⟩ | ⟨hc, -, -⟩
    · rfl
    · rw [hc, getCursor_setCursor_other _ _ _ _
        (fun he => (hne e (List.mem_cons_self _ _)) he.symm)]

theorem foldlM_reconcile_success_entry {env : Env} {sbd : Bool} :
    ∀ {es : List (Url × BlockIndex × Except WatcherErr BlockData)}
      {st st' : CursorMap × List Event × Bool} {u : Url} {idx : BlockIndex} {bd : BlockData},
      (es.map fun e => e.1).Nodup →
      (u, idx, Except.ok bd) ∈ es →
      u ∈ st.1.map Prod.fst →
      List.foldlM (reconcileOne env sbd) st es = .ok st' →
      getCursor st'.1 u = some (some idx) ∧ st'.2.2 = true := by
  intro es
  induction es with
  | nil => intro st st' u idx bd _ hmem; simp at hmem
  | cons e es ih =>
    intro st st' u idx bd hnd hmem hkey h
    rw [List.foldlM_cons] at h
    obtain ⟨st1, h1, h2⟩ := except_bind_ok h
    rcases List.mem_cons.mp hmem with heq | hmem'
    · subst heq
      rcases reconcileOne_ok_inv h1 with ⟨-, hctr⟩ | ⟨hc, hflag, -⟩
      · exact absurd hctr (by simp [exceptIsError])
      · have hnotin : ∀ e' ∈ es, e'.1 ≠ u := by
          intro e' he' heq'
          have : u ∈ es.map fun e => e.1 := heq' ▸ List.mem_map_of_mem _ he'
          exact (List.nodup_cons.mp hnd).1 this
        have hcur := foldlM_reconcile_untouched_key hnotin h2
        rw [hcur, hc, getCursor_setCursor_mem st.1 u idx hkey]
        exact ⟨rfl, (foldlM_reconcile_inv h2).2 hflag⟩
    · have hkey1 : u ∈ st1.1.map Prod.fst := by
        rw [reconcileOne_keys h1]; exact hkey
      exact ih (List.nodup_cons.mp hnd).2 hmem' hkey1 h2

/-- C4: (a) if every retained source's fetch fails in the first iteration
of a `sync_blocks` call, the call returns `Ok(false)` with the cursor map
unchanged and an empty mutation trace — no `add_block_data`,
`add_block_signature` or `update_last_synced` call is made; (b) within
one iteration's reconciliation, a source whose fetch succeeded is
advanced to its fetched index (and the iteration counts a success)
no matter how many other sources' fetches failed. -/
theorem c4_all_fail_no_mutation_and_failure_isolation :
    (∀ env (sbd : Bool) start max_block_height fuel (m : CursorMap),
      retainNeedsSync max_block_height m ≠ [] →
      (∀ p ∈ retainNeedsSync max_block_height m,
        exceptIsError (fetch_single_block env p.1 (nextTarget start p.2)) = true) →
      sync_blocks env sbd start max_block_height (fuel + 1) m =
        some (.ok (false, m, []))) ∧
    (∀ env (sbd : Bool) (es : List (Url × BlockIndex × Except WatcherErr BlockData))
      (m : CursorMap) (st' : CursorMap × List Event × Bool) u idx bd,
      (es.map fun e => e.1).Nodup →
      (u, idx, Except.ok bd) ∈ es →
      u ∈ m.map Prod.fst →
      List.foldlM (reconcileOne env sbd) (m, ([] : List Event), false) es = .ok st' →
      getCursor st'.1 u = some (some idx) ∧ st'.2.2 = true) := by
  constructor
  · intro env sbd start max_block_height fuel m hne hall
    have hisEmpty : (retainNeedsSync max_block_height m).isEmpty = false := by
      simpa using hne
    have hfold : List.foldlM (reconcileOne env sbd) (m, ([] : List Event), false)
        (((retainNeedsSync max_block_height m).map
          fun p => (p.1, nextTarget start p.2)).map
            fun q => (q.1, q.2, fetch_single_block env q.1 q.2)) =
        .ok (m, [], false) := by
      apply foldlM_reconcile_all_error
      intro e he
      rw [List.map_map] at he
      obtain ⟨p, hp, rfl⟩ := List.mem_map.mp he
      exact hall p hp
    simp only [sync_blocks, hisEmpty, Bool.false_eq_true, if_false, parallel_fetch_blocks,
      hfold]
  · intro env sbd es m st' u idx bd hnd hmem hkey h
    exact foldlM_reconcile_success_entry hnd hmem hkey h

/-- C4 witness: one source whose fetch always fails — the call returns
`Ok(false)`, the cursor map is untouched and no store call is traced. -/
theorem c4_all_fail_no_mutation_and_failure_isolation_witness :
    sync_blocks envFail false 0 none 1 [(0, none)] = some (.ok (false, [(0, none)], [])) :=
  c4_all_fail_no_mutation_and_failure_isolation.1 envFail false 0 none 0 [(0, none)]
    (by decide) (by intro p hp; rcases List.mem_singleton.mp hp with rfl; rfl)

/-- C5: with raw-material persistence enabled, an `AlreadyExists` outcome
of `add_block_data` is treated as success — reconciliation of that source
continues with exactly the signature/cursor step it would run after an
`Ok` outcome — while any other store error aborts: the single entry fails
with that error and a `sync_blocks` call whose iteration hits it returns
that error. -/
theorem c5_already_exists_benign_other_store_error_fatal :
    (∀ env (st : CursorMap × List Event × Bool) u idx bd,
      env.addBlockDataRes u bd = .alreadyExists →
      reconcileOne env true st (u, idx, .ok bd) =
        advance_step env u idx bd st.1 (st.2.1 ++ [Event.addBlockData u bd])) ∧
    (∀ env (st : CursorMap × List Event × Bool) u idx bd e,
      env.addBlockDataRes u bd = .err e →
      reconcileOne env true st (u, idx, .ok bd) = .error e) ∧
    (∀ env start max_block_height fuel m u c bd e,
      retainNeedsSync max_block_height m = [(u, c)] →
      fetch_single_block env u (nextTarget start c) = .ok bd →
      env.addBlockDataRes u bd = .err e →
      sync_blocks env true start max_block_height (fuel + 1) m = some (.error e)) := by
  refine ⟨?_, ?_, ?_⟩
  · intro env st u idx bd h
    simp [reconcileOne, store_data_step, h]
  · intro env st u idx bd e h
    simp [reconcileOne, store_data_step, h]
  · intro env start max_block_height fuel m u c bd e hret hfetch herr
    simp only [sync_blocks, hret, parallel_fetch_blocks, List.map_cons, List.map_nil,
      List.isEmpty_cons, List.foldlM_cons, List.foldlM_nil]
    simp [reconcileOne, store_data_step, hfetch, herr, Bind.bind, Except.bind]

/-- C5 witness: a store whose `add_block_data` fails fatally with code `9`
makes the whole `sync_blocks` call return that error. -/
theorem c5_already_exists_benign_other_store_error_fatal_witness :
    sync_blocks envFatalStore true 0 (some 1) 1 [(0, none)] = some (.error 9) :=
  c5_already_exists_benign_other_store_error_fatal.2.2 envFatalStore 0 (some 1) 0
    [(0, none)] 0 none bdPlain 9 rfl rfl rfl

/-- C6: for a successfully fetched block that reconciles without a store
error, material with a signature triggers exactly the signature
persistence call `add_block_signature(source, index, signature,
canonical path of index)` and no explicit cursor advance, while material
without a signature triggers exactly the explicit cursor advance
`update_last_synced(source, index)`; both advance the cursor to the
fetched index. -/
theorem c6_signature_persist_vs_explicit_advance :
    ∀ env (sbd : Bool) (m : CursorMap) (evs0 : List Event) (hs : Bool) u idx bd
      (st' : CursorMap × List Event × Bool),
      reconcileOne env sbd (m, evs0, hs) (u, idx, .ok bd) = .ok st' →
      (∀ s, bd.signature = some s →
        st'.2.1 = evs0 ++ (if sbd then [Event.addBlockData u bd] else []) ++
          [Event.addBlockSignature u idx s (env.path idx)] ∧
        st'.1 = setCursor m u idx ∧ st'.2.2 = true) ∧
      (bd.signature = none →
        st'.2.1 = evs0 ++ (if sbd then [Event.addBlockData u bd] else []) ++
          [Event.updateLastSynced u idx] ∧
        st'.1 = setCursor m u idx ∧ st'.2.2 = true) := by
  intro env sbd m evs0 hs u idx bd st' h
  simp only [reconcileOne] at h
  cases hsd : store_data_step env sbd u bd (m, evs0, hs).2.1 with
  | error e0 => rw [hsd] at h; exact absurd h (by simp)
  | ok events =>
    rw [hsd] at h
    have hev : events = evs0 ++ (if sbd then [Event.addBlockData u bd] else []) :=
      store_data_step_ok hsd
    constructor
    · intro s hsig
      simp only [advance_step, hsig] at h
      cases hres : env.addSigRes u idx s (env.path idx) with
      | error e0 => rw [hres] at h; exact absurd h (by simp)
      | ok a =>
        rw [hres] at h
        obtain rfl := Except.ok.inj h
        exact ⟨by rw [hev, List.append_assoc], rfl, rfl⟩
    · intro hsig
      simp only [advance_step, hsig] at h
      cases hres : env.updateRes u idx with
      | error e0 => rw [hres] at h; exact absurd h (by simp)
      | ok a =>
        rw [hres] at h
        obtain rfl := Except.ok.inj h
        exact ⟨by rw [hev, List.append_assoc], rfl, rfl⟩

/-- C6 witness: signed material at index `0` from source `0`, with
persistence enabled and an `AlreadyExists` data-store outcome, produces
exactly the data-store call followed by the signature-persistence call,
and advances the cursor. -/
theorem c6_signature_persist_vs_explicit_advance_witness :
    ([Event.addBlockData 0 bdSigned, Event.addBlockSignature 0 0 5 0] : List Event) =
      [] ++ (if true then [Event.addBlockData 0 bdSigned] else []) ++
        [Event.addBlockSignature 0 0 5 0] ∧
    ([(0, some 0)] : CursorMap) = setCursor [(0, none)] 0 0 ∧ true = true :=
  (c6_signature_persist_vs_explicit_advance envAlready true [(0, none)] [] false 0 0 bdSigned
    ([(0, some 0)], [Event.addBlockData 0 bdSigned, Event.addBlockSignature 0 0 5 0], true)
    rfl).1 5 rfl

theorem retain_nil_iff (h : Nat) (m : CursorMap) :
    retainNeedsSync (some h) m = [] ↔ ∀ p ∈ m, ∃ i, p.2 = some i ∧ h ≤ i := by
  unfold retainNeedsSync
  rw [List.filter_eq_nil_iff]
  constructor
  · intro hall p hp
    have hpred := hall p hp
    cases hc : p.2 with
    | none => rw [hc] at hpred; simp at hpred
    | some i =>
      rw [hc] at hpred
      simp only [decide_eq_true_eq] at hpred
      exact ⟨i, rfl, Nat.le_of_not_lt hpred⟩
  · intro hall p hp
    obtain ⟨i, hi, hle⟩ := hall p hp
    rw [hi]
    simp [Nat.not_lt_of_le hle]

/-- C2 counterexample: the claim says `syncBlocks(start, Some(h))` returns
`true` as soon as every cursor is `>= h - 1`; with the single source at
cursor `Some(0)` and bound `Some(1)`, every cursor is `>= 0`, yet the
code keeps the source (its cursor is below the bound, not below the bound
minus one), fetches block `1`, and — the fetch failing — returns `false`. -/
theorem c2_counterexample_cursor_at_bound_minus_one :
    (∀ p ∈ ([(0, some 0)] : CursorMap), ∃ i, p.2 = some i ∧ 1 - 1 ≤ i) ∧
    sync_blocks envFail false 0 (some 1) 1 [(0, some 0)] =
      some (.ok (false, [(0, some 0)], [])) := by
  constructor
  · intro p hp
    rcases List.mem_singleton.mp hp with rfl
    exact ⟨0, rfl, Nat.le_refl 0⟩
  · rfl

/-- C2 (amended): `syncBlocks(start, Some(h))` drops a source exactly when
its cursor is already `>= h` (not `>= h - 1`) and returns `true` exactly
when the remaining source set is empty: whenever it returns `true`, every
cursor of the final map is `Some(i)` with `i >= h`, and conversely when
every cursor already satisfies that, the call returns `true` immediately,
leaving the cursors untouched and making no store call. -/
theorem c2_bound_convergence_iff_cursors_at_bound :
    (∀ env (sbd : Bool) start h fuel (m fc : CursorMap) (evs : List Event),
      sync_blocks env sbd start (some h) fuel m = some (.ok (true, fc, evs)) →
      ∀ p ∈ fc, ∃ i, p.2 = some i ∧ h ≤ i) ∧
    (∀ env (sbd : Bool) start h fuel (m : CursorMap),
      (∀ p ∈ m, ∃ i, p.2 = some i ∧ h ≤ i) →
      sync_blocks env sbd start (some h) (fuel + 1) m = some (.ok (true, m, []))) := by
  constructor
  · intro env sbd start h fuel
    induction fuel with
    | zero => intro m fc evs hs; simp [sync_blocks] at hs
    | succ fuel ih =>
      intro m fc evs hs
      simp only [sync_blocks, parallel_fetch_blocks] at hs
      split at hs
      case isTrue hemp =>
        obtain ⟨hmfc, -⟩ : m = fc ∧ ([] : List Event) = evs := by
          simpa using hs
        rw [← hmfc]
        exact (retain_nil_iff h m).mp (List.isEmpty_eq_true.mp hemp)
      case isFalse hemp =>
        split at hs
        case h_1 => simp at hs
        case h_2 nc evts hsucc hfold =>
          by_cases hflag : hsucc
          case pos =>
            rw [if_pos hflag] at hs
            split at hs
            case h_1 => simp at hs
            case h_2 => simp at hs
            case h_3 b fc' more hrec =>
              obtain ⟨hb, hfc, -⟩ : b = true ∧ fc' = fc ∧ evts ++ more = evs := by
                simpa using hs
              rw [hb] at hrec
              rw [← hfc]
              exact ih nc fc' more hrec
          case neg =>
            rw [if_neg hflag] at hs
            simp at hs
  · intro env sbd start h fuel m hall
    have hnil : retainNeedsSync (some h) m = [] := (retain_nil_iff h m).mpr hall
    simp [sync_blocks, hnil]

/-- C2 (amended) witness: one source with cursor `Some(5)` and bound
`Some(1)`: the cursor is at or past the bound, so the call immediately
returns `true` without touching anything. -/
theorem c2_bound_convergence_iff_cursors_at_bound_witness :
    sync_blocks envFail false 0 (some 1) 1 [(0, some 5)] =
      some (.ok (true, [(0, some 5)], [])) :=
  c2_bound_convergence_iff_cursors_at_bound.2 envFail false 0 1 0 [(0, some 5)]
    (by intro p hp; rcases List.mem_singleton.mp hp with rfl; exact ⟨5, rfl, by decide⟩)

/-- C3 counterexample: the claim says `syncBlocks(start, None)` never
returns `true`; with an empty source map the very first iteration finds
nothing left to sync and returns `true`, bound or no bound. -/
theorem c3_counterexample_empty_sources :
    sync_blocks envFail false 0 none 1 [] = some (.ok (true, [], [])) := rfl

/-- C3 (amended): for a nonempty source map, `syncBlocks(start, None)`
never returns `true` — it can only return `false` (global stall), fail
with a store error, or still be looping when any fuel runs out; with an
empty source map it returns `true` immediately. -/
theorem c3_unbounded_never_true_on_nonempty_sources :
    (∀ env (sbd : Bool) start fuel (m : CursorMap)
      (r : Except WatcherErr (Bool × CursorMap × List Event)),
      m ≠ [] →
      sync_blocks env sbd start none fuel m = some r →
      ∀ fc evs, r ≠ .ok (true, fc, evs)) ∧
    (∀ env (sbd : Bool) start fuel,
      sync_blocks env sbd start none (fuel + 1) [] = some (.ok (true, [], []))) := by
  constructor
  · intro env sbd start fuel
    induction fuel with
    | zero => intro m r _ hs; simp [sync_blocks] at hs
    | succ fuel ih =>
      intro m r hne hs
      simp only [sync_blocks, parallel_fetch_blocks, retainNeedsSync] at hs
      rw [if_neg (by simpa using hne)] at hs
      split at hs
      case h_1 =>
        obtain rfl : Except.error _ = r := by simpa using hs
        intro fc evs hcontra
        simp at hcontra
      case h_2 nc evts hsucc hfold =>
        have hnc : nc ≠ [] := by
          intro hz
          have hkeys := (foldlM_reconcile_inv hfold).1
          rw [hz] at hkeys
          exact hne (by simpa using hkeys.symm)
        by_cases hflag : hsucc
        case pos =>
          rw [if_pos hflag] at hs
          split at hs
          case h_1 => simp at hs
          case h_2 e hrec =>
            obtain rfl : Except.error e = r := by simpa using hs
            intro fc evs hcontra
            simp at hcontra
          case h_3 b fc' more hrec =>
            obtain rfl : Except.ok (b, fc', evts ++ more) = r := by simpa using hs
            intro fc evs hcontra
            obtain ⟨rfl, -, -⟩ : b = true ∧ fc' = fc ∧ evts ++ more = evs := by
              simpa using hcontra
            exact ih nc (.ok (true, fc', more)) hnc hrec fc' more rfl
        case neg =>
          rw [if_neg hflag] at hs
          obtain rfl : Except.ok (false, nc, evts) = r := by simpa using hs
          intro fc evs hcontra
          simp at hcontra
  · intro env sbd start fuel
    rfl

/-- C3 (amended) witness: a nonempty map whose only fetch fails — the
unbounded call's `Ok(false)` outcome is not an `Ok(true, ..)` outcome. -/
theorem c3_unbounded_never_true_on_nonempty_sources_witness :
    (Except.ok ((false, [(0, none)], []) : Bool × CursorMap × List Event) :
      Except WatcherErr (Bool × CursorMap × List Event)) ≠ .ok (true, [], []) :=
  c3_unbounded_never_true_on_nonempty_sources.1 envFail false 0 1 [(0, none)]
    (.ok (false, [(0, none)], [])) (by decide) rfl [] []

theorem cursorLE_refl (c : Option BlockIndex) : cursorLE c c := by
  cases c <;> simp [cursorLE]

theorem cursorLE_trans {a b c : Option BlockIndex}
    (h1 : cursorLE a b) (h2 : cursorLE b c) : cursorLE a c := by
  cases a with
  | none => exact trivial
  | some i =>
    cases b with
    | none => exact absurd h1 (by simp [cursorLE])
    | some j =>
      cases c with
      | none => exact absurd h2 (by simp [cursorLE])
      | some k => exact Nat.le_trans h1 h2

theorem cursorLE_next (start : Nat) (c : Option BlockIndex) :
    cursorLE c (some (nextTarget start c)) := by
  cases c <;> simp [cursorLE, nextTarget]

theorem nextIndexOf_mono {a b : Option BlockIndex} (h : cursorLE a b) :
    nextIndexOf a ≤ nextIndexOf b := by
  cases a with
  | none => exact Nat.zero_le _
  | some i =>
    cases b with
    | none => exact absurd h (by simp [cursorLE])
    | some j => exact Nat.succ_le_succ h

/-- Pairwise cursor evolution: same source, cursor not moved backwards. -/
def cursorRel (p q : Url × Option BlockIndex) : Prop :=
  p.1 = q.1 ∧ cursorLE p.2 q.2

theorem forall2_cursorRel_refl (m : CursorMap) : List.Forall₂ cursorRel m m := by
  induction m with
  | nil => exact List.Forall₂.nil
  | cons p m ih => exact List.Forall₂.cons ⟨rfl, cursorLE_refl p.2⟩ ih

theorem forall2_cursorRel_trans {a b c : CursorMap}
    (h1 : List.Forall₂ cursorRel a b) (h2 : List.Forall₂ cursorRel b c) :
    List.Forall₂ cursorRel a c := by
  induction h1 generalizing c with
  | nil => cases h2; exact List.Forall₂.nil
  | cons hpq h ih =>
    cases h2 with
    | cons hqr h2' =>
      exact List.Forall₂.cons ⟨hpq.1.trans hqr.1, cursorLE_trans hpq.2 hqr.2⟩ (ih h2')

theorem forall2_mem_right {α β : Type} {R : α → β → Prop} :
    ∀ {l1 : List α} {l2 : List β}, List.Forall₂ R l1 l2 → ∀ b ∈ l2, ∃ a ∈ l1, R a b := by
  intro l1 l2 h
  induction h with
  | nil => intro b hb; simp at hb
  | cons hr ht ih =>
    intro b hb
    rcases List.mem_cons.mp hb with rfl | hb'
    · exact ⟨_, List.mem_cons_self _ _, hr⟩
    · obtain ⟨a, ha, har⟩ := ih b hb'
      exact ⟨a, List.mem_cons_of_mem _ ha, har⟩

theorem lowest_mono {m fc : CursorMap} (h : List.Forall₂ cursorRel m fc) :
    lowest_next_block_to_sync m ≤ lowest_next_block_to_sync fc := by
  cases fc with
  | nil =>
    cases h
    exact Nat.le_refl _
  | cons q fc' =>
    obtain ⟨qq, hq, heq⟩ := lowest_attained (q :: fc') (by simp)
    obtain ⟨p, hp, hrel⟩ := forall2_mem_right h qq hq
    rw [heq]
    exact Nat.le_trans (lowest_le_of_mem m p hp) (nextIndexOf_mono hrel.2)

theorem setCursor_forall2 {m0 cur : CursorMap} {u : Url} {idx : BlockIndex}
    (h : List.Forall₂ cursorRel m0 cur)
    (hcond : ∀ p ∈ m0, p.1 = u → cursorLE p.2 (some idx)) :
    List.Forall₂ cursorRel m0 (setCursor cur u idx) := by
  induction h with
  | nil => exact List.Forall₂.nil
  | @cons p q m0' cur' hpq htail ih =>
    rw [setCursor_cons]
    refine List.Forall₂.cons ?_ (ih fun p' hp' hpu =>
      hcond p' (List.mem_cons_of_mem _ hp') hpu)
    by_cases hq : q.1 = u
    · rw [if_pos hq]
      exact ⟨hpq.1, hcond p (List.mem_cons_self _ _) (hpq.1.trans hq)⟩
    · rw [if_neg hq]
      exact hpq

theorem fold_forall2 {env : Env} {sbd : Bool} :
    ∀ {es : List (Url × BlockIndex × Except WatcherErr BlockData)}
      {st st' : CursorMap × List Event × Bool},
      List.foldlM (reconcileOne env sbd) st es = .ok st' →
      ∀ {m0 : CursorMap}, List.Forall₂ cursorRel m0 st.1 →
      (∀ e ∈ es, ∀ p ∈ m0, p.1 = e.1 → cursorLE p.2 (some e.2.1)) →
      List.Forall₂ cursorRel m0 st'.1 := by
  intro es
  induction es with
  | nil =>
    intro st st' h m0 hf2 _
    obtain rfl : st = st' := by simpa [List.foldlM_nil, pure, Except.pure] using h
    exact hf2
  | cons e es ih =>
    intro st st' h m0 hf2 hcond
    rw [List.foldlM_cons] at h
    obtain ⟨st1, h1, h2⟩ := except_bind_ok h
    have hf2' : List.Forall₂ cursorRel m0 st1.1 := by
      rcases reconcileOne_ok_inv h1 with ⟨rfl, -⟩ | ⟨hc, -, -⟩
      · exact hf2
      · rw [hc]
        exact setCursor_forall2 hf2 (hcond e (List.mem_cons_self _ _))
    exact ih h2 hf2' fun e' he' => hcond e' (List.mem_cons_of_mem _ he')

theorem nodup_key_unique {m : CursorMap} (hnd : (m.map Prod.fst).Nodup)
    {u : Url} {c c' : Option BlockIndex} (h1 : (u, c) ∈ m) (h2 : (u, c') ∈ m) : c = c' := by
  induction m with
  | nil => simp at h1
  | cons p m ih =>
    rw [List.map_cons, List.nodup_cons] at hnd
    rcases List.mem_cons.mp h1 with he1 | h1' <;> rcases List.mem_cons.mp h2 with he2 | h2'
    · rw [← he2] at he1
      exact (Prod.mk.injEq _ _ _ _ |>.mp he1).2
    · exfalso
      apply hnd.1
      have hu2 : u ∈ m.map Prod.fst := List.mem_map_of_mem Prod.fst h2'
      rw [← he1]
      exact hu2
    · exfalso
      apply hnd.1
      have hu1 : u ∈ m.map Prod.fst := List.mem_map_of_mem Prod.fst h1'
      rw [← he2]
      exact hu1
    · exact ih hnd.2 h1' h2'

theorem retain_subset (max_block_height : Option Nat) (m : CursorMap) :
    ∀ p ∈ retainNeedsSync max_block_height m, p ∈ m := by
  intro p hp
  cases max_block_height with
  | none => exact hp
  | some h => exact List.mem_of_mem_filter hp

/-- C9: every cursor write of `sync_blocks` targets the source's current
next index (`cursor + 1` when synced, the pass start when unsynced),
which is never below the next index derived from the cursor; hence for a
cursor map with distinct sources, whenever `sync_blocks` returns a
result, each source's cursor in the final map has not moved backwards and
`lowest_next_block_to_sync` has not decreased. -/
theorem c9_cursors_and_lowest_monotone :
    (∀ start (c : Option BlockIndex), nextIndexOf c ≤ nextTarget start c) ∧
    (∀ env (sbd : Bool) start max_block_height fuel (m fc : CursorMap) (b : Bool)
      (evs : List Event),
      (m.map Prod.fst).Nodup →
      sync_blocks env sbd start max_block_height fuel m = some (.ok (b, fc, evs)) →
      List.Forall₂ cursorRel m fc ∧
      lowest_next_block_to_sync m ≤ lowest_next_block_to_sync fc) := by
  constructor
  · intro start c
    cases c <;> simp [nextIndexOf, nextTarget]
  · intro env sbd start max_block_height fuel
    induction fuel with
    | zero => intro m fc b evs _ hs; simp [sync_blocks] at hs
    | succ fuel ih =>
      intro m fc b evs hnd hs
      suffices hf2 : List.Forall₂ cursorRel m fc from ⟨hf2, lowest_mono hf2⟩
      simp only [sync_blocks, parallel_fetch_blocks] at hs
      split at hs
      case isTrue hemp =>
        obtain ⟨-, hmfc, -⟩ : b = true ∧ m = fc ∧ evs = [] := by simpa using hs
        rw [← hmfc]
        exact forall2_cursorRel_refl m
      case isFalse hemp =>
        split at hs
        case h_1 => simp at hs
        case h_2 nc evts hsucc hfold =>
          have hstep : List.Forall₂ cursorRel m nc := by
            have := fold_forall2 hfold (forall2_cursorRel_refl m)
            apply this
            intro e he p hp hpe
            rw [List.map_map] at he
            obtain ⟨pr, hpr, rfl⟩ := List.mem_map.mp he
            have hprm : pr ∈ m := retain_subset max_block_height m pr hpr
            obtain ⟨pu, pc⟩ := p
            have hpu : pu = pr.1 := hpe
            subst hpu
            have hprm' : (pr.1, pr.2) ∈ m := by simpa using hprm
            have hcc : pc = pr.2 := nodup_key_unique hnd hp hprm'
            subst hcc
            exact cursorLE_next start pr.2
          have hndnc : (nc.map Prod.fst).Nodup := by
            rw [(foldlM_reconcile_inv hfold).1]
            exact hnd
          by_cases hflag : hsucc
          case pos =>
            rw [if_pos hflag] at hs
            split at hs
            case h_1 => simp at hs
            case h_2 => simp at hs
            case h_3 b' fc' more hrec =>
              obtain ⟨-, hfc, -⟩ : b' = b ∧ fc' = fc ∧ evts ++ more = evs := by
                simpa using hs
              rw [hfc] at hrec
              exact forall2_cursorRel_trans hstep (ih nc fc b' more hndnc hrec).1
          case neg =>
            rw [if_neg hflag] at hs
            obtain ⟨-, hfc, -⟩ : false = b ∧ nc = fc ∧ evts = evs := by simpa using hs
            rw [← hfc]
            exact hstep

/-- C9 witness: one unsynced source, bound `Some(1)`, all fetches
succeeding — across the whole call the cursor moves `None → Some(1)` and
the lowest next block to sync climbs from `0` to `2`. -/
theorem c9_cursors_and_lowest_monotone_witness :
    List.Forall₂ cursorRel [(0, none)] [(0, some 1)] ∧
    lowest_next_block_to_sync [(0, none)] ≤ lowest_next_block_to_sync [(0, some 1)] :=
  c9_cursors_and_lowest_monotone.2 envPlain false 0 (some 1) 3 [(0, none)] [(0, some 1)]
    true [Event.updateLastSynced 0 0, Event.updateLastSynced 0 1] (by decide) rfl

end MobileCoinWatcher
